import Mathlib

/-!
Verification of the ingestion-and-deduplication pipeline in `src/scraple.py`.

Shallow embedding conventions:
* Python strings are modelled as lists of code points (`Str := List Char`);
  Python slicing `s[:200]` is `List.take 200`, Python substring membership
  `needle in hay` is `List.isInfixOf`, and `s.split(sep)` is `pySplit`.
* HTML parsing (BeautifulSoup) is an external library: a page's markup is
  modelled as the list of its anchor elements in document order, each anchor
  carrying its `href` attribute and the result of `get_text(strip=True)`.
* Network I/O is modelled by an environment `Env` of deterministic responses:
  `fetch page` is `none` when `requests.get`/`raise_for_status` raises
  (transport error or non-2xx status), otherwise the parsed anchors of the
  returned markup; `query url` and `create post` are the HTTP responses of the
  Notion query and page-creation calls.
* `print` calls are modelled as appended `LogEntry` values; `time.sleep` is a
  no-op for the properties considered here.
-/

/-- A Python string, as its sequence of code points. -/
abbrev Str := List Char

/-- One anchor element of the parsed markup: `href` is its `href` attribute,
`text` the result of `a.get_text(strip=True)`. Document order is list order. -/
structure Anchor where
  href : Str
  text : Str
deriving DecidableEq, Repr

/-- The dictionary `{"title": ..., "url": ..., "blogger": ...}` built by
`parse_posts` in `src/scraple.py`. -/
structure Post where
  title : Str
  url : Str
  blogger : Str
deriving DecidableEq, Repr

/-- Worker for `pySplit`: scans the input left to right; `skip` counts
separator characters still to be consumed after a match (Python's split is
leftmost, non-overlapping); `acc` is the current piece, reversed. -/
def splitGo (sep : Str) : Str → Nat → Str → List Str
  | [], _, acc => [acc.reverse]
  | _ :: rest, k + 1, acc => splitGo sep rest k acc
  | c :: rest, 0, acc =>
    if sep.isPrefixOf (c :: rest) then
      acc.reverse :: splitGo sep rest (sep.length - 1) []
    else
      splitGo sep rest 0 (c :: acc)

/-- Python `s.split(sep)` for a nonempty separator (the only separators used in
`src/scraple.py` are `"?"`, `"blog.naver.com/"` and `"/"`; Python raises on an
empty separator, which never happens there). -/
def pySplit (s sep : Str) : List Str :=
  splitGo sep s 0 []

/-- Worker for `pyIn`: leftmost substring scan. -/
def pyInGo (needle : Str) : Str → Bool
  | [] => needle.isEmpty
  | c :: rest => needle.isPrefixOf (c :: rest) || pyInGo needle rest

/-- Python `needle in hay` (substring containment). -/
def pyIn (needle hay : Str) : Bool :=
  pyInGo needle hay

/-- `href.split("?")[0]` — line 44 of `src/scraple.py`. -/
def stripQuery (href : Str) : Str :=
  (pySplit href ("?".toList)).headD []

/-- The host filter substring `"blog.naver.com"` — line 40. -/
def hostMarker : Str := "blog.naver.com".toList

/-- The author-path marker `"blog.naver.com/"` — lines 53–54. -/
def authorMarker : Str := "blog.naver.com/".toList

/-- `url.split("blog.naver.com/")[1].split("/")[0]` guarded by
`"blog.naver.com/" in url`, else `""` — lines 52–54 of `src/scraple.py`. -/
def bloggerOf (url : Str) : Str :=
  if pyIn authorMarker url then
    (pySplit ((pySplit url authorMarker).getD 1 []) ("/".toList)).headD []
  else []

/-- The body of the `for a in soup.find_all(...)` loop in `parse_posts`
(lines 38–60): `none` when the anchor is skipped (`continue`), otherwise the
dictionary appended to `results`. -/
def processAnchor (a : Anchor) : Option Post :=
  if pyIn hostMarker a.href then
    let url := stripQuery a.href
    let title := a.text
    if title = [] then none
    else some { title := title.take 200, url := url, blogger := bloggerOf url }
  else none

/-- One step of filling the Python dict `unique` (line 65): insertion-ordered
keys, value overwritten when the key is already present (last write wins). -/
def insertPost (m : List Post) (p : Post) : List Post :=
  if m.any (fun q => q.url = p.url) then
    m.map (fun q => if q.url = p.url then p else q)
  else m ++ [p]

/-- The dedup pass of `parse_posts` (lines 62–66): build `unique` keyed by
`url`, then return `list(unique.values())` — first-insertion key order, each
value the last item seen with that url. -/
def dedupByUrl (results : List Post) : List Post :=
  results.foldl insertPost []

/-- `parse_posts` (lines 33–66 of `src/scraple.py`), over the anchors of the
markup in document order. -/
def parse_posts (anchors : List Anchor) : List Post :=
  dedupByUrl (anchors.filterMap processAnchor)

/-- One `print` call of the script. -/
inductive LogEntry where
  | fetchPage (page : Nat)
  | pageFetchError
  | noPostsFound
  | queryError (text : Str)
  | insertError (text : Str)
  | savedToNotion (title url : Str)
  | done (n : Nat)
deriving DecidableEq, Repr

/-- Response of the Notion database query call (line 85): HTTP status, body
text, and the length of `data.get("results", [])`. -/
structure QueryResp where
  status : Nat
  text : Str
  numResults : Nat
deriving DecidableEq, Repr

/-- Response of the Notion page-creation call (line 123). -/
structure CreateResp where
  status : Nat
  text : Str
deriving DecidableEq, Repr

/-- The external world: `fetch page` is `none` when `fetch_page` raises
(transport error, or non-2xx via `raise_for_status`), otherwise the anchors of
the returned markup; `query url` and `create post` are the responses of the
two Notion endpoints. -/
structure Env where
  fetch : Nat → Option (List Anchor)
  query : Str → QueryResp
  create : Post → CreateResp

/-- `notion_page_exists` (lines 68–90): on a non-200 response log the error
and return `False`; otherwise return whether the results list is nonempty.
The returned pair is (result, log output). -/
def notion_page_exists (resp : QueryResp) : Bool × List LogEntry :=
  if resp.status ≠ 200 then (false, [.queryError resp.text])
  else (decide (0 < resp.numResults), [])

/-- `create_notion_page` (lines 92–127): returns only its log output — the
function has no return value and swallows a non-200 response after logging. -/
def create_notion_page (p : Post) (resp : CreateResp) : List LogEntry :=
  if resp.status ≠ 200 then [.insertError resp.text]
  else [.savedToNotion p.title p.url]

/-- The mutable state of `main`: the `new_count` counter, the list of
page-creation calls issued so far (in order), and the log. -/
structure RunState where
  newCount : Nat
  creations : List Post
  log : List LogEntry
deriving DecidableEq, Repr

/-- The body of the `for p in posts` loop in `main` (lines 146–152): check
existence; on `True` skip, otherwise call `create_notion_page` and increment
`new_count` (unconditionally — `create_notion_page` reports no failure). -/
def processPost (env : Env) (st : RunState) (p : Post) : RunState :=
  let r := notion_page_exists (env.query p.url)
  let st1 : RunState := { st with log := st.log ++ r.2 }
  if r.1 then st1
  else
    { newCount := st1.newCount + 1
      creations := st1.creations ++ [p]
      log := st1.log ++ create_notion_page p (env.create p) }

/-- The inner loop of `main` over one page's posts. -/
def processPosts (env : Env) (posts : List Post) (st : RunState) : RunState :=
  posts.foldl (processPost env) st

/-- The body of the `for page in range(1, max_page + 1)` loop (lines 133–154):
print the fetch banner, skip the page on a fetch exception, skip when no posts
were parsed, otherwise process every post. -/
def processPage (env : Env) (st : RunState) (page : Nat) : RunState :=
  let st1 : RunState := { st with log := st.log ++ [.fetchPage page] }
  match env.fetch page with
  | none => { st1 with log := st1.log ++ [.pageFetchError] }
  | some anchors =>
    let posts := parse_posts anchors
    if posts = [] then { st1 with log := st1.log ++ [.noPostsFound] }
    else processPosts env posts st1

/-- `max_page = 5` — line 130. -/
def max_page : Nat := 5

/-- `main` (lines 129–156): iterate pages `1..max_page`, then print the final
tally. -/
def runMain (env : Env) : RunState :=
  let final := (List.range' 1 max_page).foldl (processPage env) ⟨0, [], []⟩
  { final with log := final.log ++ [.done final.newCount] }

/-- Whether `main` treats post `p` as new under `env` (the existence check
returns `False`). -/
def postNew (env : Env) (p : Post) : Bool :=
  !(notion_page_exists (env.query p.url)).1

/-- The posts `main` parses from page `page` (empty when the fetch raises). -/
def pagePosts (env : Env) (page : Nat) : List Post :=
  ((env.fetch page).map parse_posts).getD []

/-- The posts of page `page` that the existence check reports as new. -/
def pageNewPosts (env : Env) (page : Nat) : List Post :=
  (pagePosts env page).filter (postNew env)

/-- The log output of processing one post. -/
def postLog (env : Env) (p : Post) : List LogEntry :=
  let r := notion_page_exists (env.query p.url)
  if r.1 then r.2 else r.2 ++ create_notion_page p (env.create p)

/-- The log output of processing one page. -/
def pageLog (env : Env) (page : Nat) : List LogEntry :=
  LogEntry.fetchPage page ::
    match env.fetch page with
    | none => [.pageFetchError]
    | some anchors =>
      let posts := parse_posts anchors
      if posts = [] then [.noPostsFound]
      else (posts.map (postLog env)).flatten

/-- Deduplication keeping the first occurrence of each element, in order:
the key order of a Python dict built by repeated insertion. -/
def dedupFirstGo (seen : List Str) : List Str → List Str
  | [] => []
  | u :: rest =>
    if u ∈ seen then dedupFirstGo seen rest
    else u :: dedupFirstGo (u :: seen) rest

/-! ### Lemmas about the string operations -/

lemma splitGo_single_head (c : Char) (l : Str) : ∀ acc : Str,
    (splitGo [c] l 0 acc).headD [] = acc.reverse ++ l.takeWhile (fun x => x != c) := by
  induction l with
  | nil => intro acc; simp [splitGo]
  | cons d rest ih =>
    intro acc
    by_cases hd : c = d
    · subst hd
      simp [splitGo, List.isPrefixOf, List.takeWhile_cons]
    · have hne : (d != c) = true := by simp [bne, Ne.symm hd]
      simp only [splitGo, List.isPrefixOf, List.takeWhile_cons, hne]
      have hbeq : (c == d) = false := by simp [hd]
      simp only [hbeq, Bool.false_and, if_false, List.isPrefixOf.eq_def]
      rw [if_neg (by simp [hd])]
      rw [ih (d :: acc)]
      simp

lemma stripQuery_takeWhile (s : Str) :
    stripQuery s = s.takeWhile (fun x => x != '?') := by
  have h1 : ("?".toList : Str) = ['?'] := rfl
  rw [stripQuery, pySplit, h1, splitGo_single_head]
  simp

lemma stripQuery_of_no_query {s : Str} (h : '?' ∉ s) : stripQuery s = s := by
  rw [stripQuery_takeWhile, List.takeWhile_eq_self_iff]
  intro x hx
  simp only [bne_iff_ne, ne_eq]
  exact fun hxq => h (hxq ▸ hx)

lemma not_mem_stripQuery (s : Str) : '?' ∉ stripQuery s := by
  rw [stripQuery_takeWhile]
  intro hmem
  have := List.mem_takeWhile_imp hmem
  simp at this

lemma stripQuery_append (s : Str) : ∃ t, stripQuery s ++ t = s := by
  rw [stripQuery_takeWhile]
  exact ⟨s.dropWhile (fun x => x != '?'), List.takeWhile_append_dropWhile _ _⟩

lemma pyIn_iff (needle hay : Str) : pyIn needle hay = true ↔ needle <:+: hay := by
  induction hay with
  | nil => simp [pyIn, pyInGo, List.isEmpty_iff, List.infix_nil]
  | cons c rest ih =>
    simp only [pyIn, pyInGo, Bool.or_eq_true, List.isPrefixOf_iff_prefix,
      List.infix_cons_iff]
    rw [← ih]
    rfl

lemma pyIn_stripQuery {m s : Str} (h : pyIn m s = false) :
    pyIn m (stripQuery s) = false := by
  by_contra hc
  have htrue : pyIn m (stripQuery s) = true := by
    cases hval : pyIn m (stripQuery s) with
    | false => exact absurd hval hc
    | true => rfl
  have hinf : m <:+: stripQuery s := (pyIn_iff _ _).1 htrue
  obtain ⟨t, ht⟩ := stripQuery_append s
  have hinf2 : m <:+: s := hinf.trans ⟨[], t, by simpa using ht⟩
  have := (pyIn_iff m s).2 hinf2
  rw [h] at this
  exact absurd this (by simp)

/-! ### Lemmas about the last-write-wins dictionary -/

lemma any_url_iff (m : List Post) (p : Post) :
    (m.any fun q => q.url = p.url) = true ↔ p.url ∈ m.map Post.url := by
  simp [List.any_eq_true, List.mem_map]

lemma urls_insertPost (m : List Post) (p : Post) :
    (insertPost m p).map Post.url =
      if p.url ∈ m.map Post.url then m.map Post.url else m.map Post.url ++ [p.url] := by
  unfold insertPost
  by_cases hc : (m.any fun q => q.url = p.url) = true
  · rw [if_pos hc, if_pos ((any_url_iff m p).1 hc), List.map_map]
    refine List.map_congr_left ?_
    intro q _
    by_cases hq : q.url = p.url <;> simp [hq]
  · rw [if_neg hc, if_neg (fun hmem => hc ((any_url_iff m p).2 hmem))]
    simp

lemma mem_urls_foldl (l : List Post) : ∀ (m : List Post) (u : Str),
    u ∈ (l.foldl insertPost m).map Post.url ↔
      u ∈ m.map Post.url ∨ u ∈ l.map Post.url := by
  induction l with
  | nil => intro m u; simp
  | cons a t ih =>
    intro m u
    rw [List.foldl_cons, ih]
    rw [urls_insertPost]
    by_cases hm : a.url ∈ m.map Post.url
    · rw [if_pos hm]
      simp only [List.map_cons, List.mem_cons]
      constructor
      · tauto
      · rintro (h | h | h)
        · tauto
        · subst h; tauto
        · tauto
    · rw [if_neg hm]
      simp only [List.mem_append, List.map_cons, List.mem_cons, List.mem_singleton]
      tauto

lemma nodup_urls_foldl (l : List Post) : ∀ m : List Post,
    (m.map Post.url).Nodup → ((l.foldl insertPost m).map Post.url).Nodup := by
  induction l with
  | nil => intro m h; exact h
  | cons a t ih =>
    intro m h
    rw [List.foldl_cons]
    refine ih _ ?_
    rw [urls_insertPost]
    by_cases hm : a.url ∈ m.map Post.url
    · rw [if_pos hm]; exact h
    · rw [if_neg hm]
      simp [List.nodup_append, h, hm]

lemma mem_insertPost {m : List Post} {a p : Post} (h : p ∈ insertPost m a) :
    p ∈ m ∨ p = a := by
  unfold insertPost at h
  split at h
  · rw [List.mem_map] at h
    obtain ⟨q, hq, hfq⟩ := h
    by_cases hu : q.url = a.url
    · right; rw [if_pos hu] at hfq; exact hfq.symm
    · left; rw [if_neg hu] at hfq; exact hfq ▸ hq
  · rcases List.mem_append.1 h with hm | hs
    · left; exact hm
    · right; simpa using hs

lemma mem_insertPost_url_eq {m : List Post} {a p : Post}
    (h1 : p ∈ insertPost m a) (h2 : p.url = a.url) : p = a := by
  unfold insertPost at h1
  split at h1
  · rw [List.mem_map] at h1
    obtain ⟨q, hq, hfq⟩ := h1
    by_cases hu : q.url = a.url
    · rw [if_pos hu] at hfq; exact hfq.symm
    · rw [if_neg hu] at hfq
      exact absurd (hfq ▸ h2) hu
  · next hany =>
    rcases List.mem_append.1 h1 with hm | hs
    · exfalso
      apply hany
      rw [List.any_eq_true]
      exact ⟨p, hm, by simpa using h2⟩
    · simpa using hs

lemma mem_insertPost_url_ne {m : List Post} {a p : Post}
    (h1 : p ∈ insertPost m a) (h2 : p.url ≠ a.url) : p ∈ m := by
  rcases mem_insertPost h1 with hm | he
  · exact hm
  · subst he; exact absurd rfl h2

lemma mem_foldl_insertPost (l : List Post) : ∀ (m : List Post) (p : Post),
    p ∈ l.foldl insertPost m → p ∈ m ∨ p ∈ l := by
  induction l with
  | nil => intro m p h; left; exact h
  | cons a t ih =>
    intro m p h
    rw [List.foldl_cons] at h
    rcases ih _ p h with hm | ht
    · rcases mem_insertPost hm with h1 | h2
      · left; exact h1
      · right; simp [h2]
    · right; simp [ht]

lemma getLast?_cons_of_ne_nil {x : Post} {xs : List Post} (h : xs ≠ []) :
    (x :: xs).getLast? = xs.getLast? := by
  cases xs with
  | nil => exact absurd rfl h
  | cons y ys => exact List.getLast?_cons_cons

lemma lastWins_foldl (l : List Post) : ∀ (m : List Post) (p : Post),
    p ∈ l.foldl insertPost m →
      ((l.filter fun q => q.url = p.url).getLast? = some p) ∨
      ((l.filter fun q => q.url = p.url) = [] ∧ p ∈ m) := by
  induction l with
  | nil => intro m p h; right; exact ⟨rfl, h⟩
  | cons a t ih =>
    intro m p h
    rw [List.foldl_cons] at h
    rcases ih _ p h with hlast | ⟨hnil, hm⟩
    · left
      have hne : (t.filter fun q => q.url = p.url) ≠ [] := by
        intro hc; rw [hc] at hlast; simp at hlast
      by_cases hPa : a.url = p.url
      · rw [List.filter_cons_of_pos (by simpa using hPa), getLast?_cons_of_ne_nil hne]
        exact hlast
      · rw [List.filter_cons_of_neg (by simpa using hPa)]
        exact hlast
    · by_cases hPa : a.url = p.url
      · left
        have hpa : p = a := mem_insertPost_url_eq hm hPa.symm
        rw [List.filter_cons_of_pos (by simpa using hPa), hnil]
        simp [hpa]
      · right
        refine ⟨?_, mem_insertPost_url_ne hm (fun hc => hPa hc.symm)⟩
        rw [List.filter_cons_of_neg (by simpa using hPa)]
        exact hnil

lemma dedupFirstGo_congr (l : List Str) : ∀ (s1 s2 : List Str),
    (∀ x, x ∈ s1 ↔ x ∈ s2) → dedupFirstGo s1 l = dedupFirstGo s2 l := by
  induction l with
  | nil => intro s1 s2 _; rfl
  | cons u rest ih =>
    intro s1 s2 hs
    by_cases hu : u ∈ s1
    · rw [dedupFirstGo, dedupFirstGo, if_pos hu, if_pos ((hs u).1 hu)]
      exact ih s1 s2 hs
    · rw [dedupFirstGo, dedupFirstGo, if_neg hu, if_neg (fun hc => hu ((hs u).2 hc))]
      refine congrArg (u :: ·) (ih _ _ ?_)
      intro x
      simp only [List.mem_cons]
      exact or_congr Iff.rfl (hs x)

lemma urls_foldl_dedupFirst (l : List Post) : ∀ m : List Post,
    (l.foldl insertPost m).map Post.url =
      m.map Post.url ++ dedupFirstGo (m.map Post.url) (l.map Post.url) := by
  induction l with
  | nil => intro m; simp [dedupFirstGo]
  | cons a t ih =>
    intro m
    rw [List.foldl_cons, ih, urls_insertPost, List.map_cons]
    by_cases hm : a.url ∈ m.map Post.url
    · rw [if_pos hm, dedupFirstGo, if_pos hm]
    · rw [if_neg hm, dedupFirstGo, if_neg hm]
      rw [List.append_assoc, List.singleton_append]
      refine congrArg _ (congrArg _ ?_)
      refine dedupFirstGo_congr _ _ _ ?_
      intro x
      simp only [List.mem_append, List.mem_singleton, List.mem_cons]
      tauto

/-! ### Derived facts about `parse_posts` -/

lemma parse_posts_urls (anchors : List Anchor) :
    (parse_posts anchors).map Post.url =
      dedupFirstGo [] ((anchors.filterMap processAnchor).map Post.url) := by
  rw [parse_posts, dedupByUrl, urls_foldl_dedupFirst]
  simp

lemma parse_posts_nodup (anchors : List Anchor) :
    ((parse_posts anchors).map Post.url).Nodup := by
  exact nodup_urls_foldl _ [] (by simp)

lemma parse_posts_mem_urls (anchors : List Anchor) (u : Str) :
    u ∈ (parse_posts anchors).map Post.url ↔
      u ∈ (anchors.filterMap processAnchor).map Post.url := by
  rw [parse_posts, dedupByUrl, mem_urls_foldl]
  simp

lemma parse_posts_last {anchors : List Anchor} {p : Post}
    (h : p ∈ parse_posts anchors) :
    ((anchors.filterMap processAnchor).filter fun q => q.url = p.url).getLast?
      = some p := by
  rcases lastWins_foldl _ [] p h with hl | ⟨_, hm⟩
  · exact hl
  · exact absurd hm (by simp)

lemma parse_posts_sub {anchors : List Anchor} {p : Post}
    (h : p ∈ parse_posts anchors) : p ∈ anchors.filterMap processAnchor := by
  rcases mem_foldl_insertPost _ [] p h with hm | hl
  · exact absurd hm (by simp)
  · exact hl

lemma processAnchor_some {a : Anchor} {p : Post} (h : processAnchor a = some p) :
    p.title = a.text.take 200 ∧ p.url = stripQuery a.href ∧
      p.blogger = bloggerOf (stripQuery a.href) ∧ a.text ≠ [] ∧
      pyIn hostMarker a.href = true := by
  unfold processAnchor at h
  by_cases h1 : pyIn hostMarker a.href = true
  · rw [if_pos h1] at h
    by_cases h2 : a.text = []
    · rw [if_pos h2] at h; exact absurd h (by simp)
    · rw [if_neg h2] at h
      have hp := Option.some.inj h
      refine ⟨?_, ?_, ?_, h2, h1⟩ <;> rw [← hp]
  · rw [if_neg (by simpa using h1)] at h
    exact absurd h (by simp)

/-! ### Lemmas about the orchestrator -/

lemma processPost_eq (env : Env) (st : RunState) (p : Post) :
    processPost env st p =
      ⟨st.newCount + (if postNew env p then 1 else 0),
       st.creations ++ (if postNew env p then [p] else []),
       st.log ++ postLog env p⟩ := by
  unfold processPost postNew postLog
  by_cases hb : (notion_page_exists (env.query p.url)).1 = true
  · simp [hb]
  · simp only [Bool.not_eq_true] at hb
    simp [hb]

lemma processPosts_eq (env : Env) (posts : List Post) : ∀ st : RunState,
    processPosts env posts st =
      ⟨st.newCount + (posts.filter (postNew env)).length,
       st.creations ++ posts.filter (postNew env),
       st.log ++ (posts.map (postLog env)).flatten⟩ := by
  induction posts with
  | nil => intro st; simp [processPosts]
  | cons p rest ih =>
    intro st
    have hstep : processPosts env (p :: rest) st =
        processPosts env rest (processPost env st p) := by
      simp [processPosts]
    rw [hstep, ih, processPost_eq]
    by_cases hb : postNew env p = true
    · simp [hb, List.filter_cons, Nat.add_assoc, Nat.add_comm 1]
    · simp only [Bool.not_eq_true] at hb
      simp [hb, List.filter_cons]

lemma processPage_eq (env : Env) (st : RunState) (page : Nat) :
    processPage env st page =
      ⟨st.newCount + (pageNewPosts env page).length,
       st.creations ++ pageNewPosts env page,
       st.log ++ pageLog env page⟩ := by
  unfold processPage pageNewPosts pagePosts pageLog
  cases hf : env.fetch page with
  | none => simp
  | some anchors =>
    simp only [Option.map_some, Option.getD_some]
    by_cases hp : parse_posts anchors = []
    · simp [hp]
    · rw [if_neg hp, if_neg hp, processPosts_eq]
      simp

lemma foldPages_eq (env : Env) (pages : List Nat) : ∀ st : RunState,
    pages.foldl (processPage env) st =
      ⟨st.newCount + (pages.map fun pg => (pageNewPosts env pg).length).sum,
       st.creations ++ (pages.map (pageNewPosts env)).flatten,
       st.log ++ (pages.map (pageLog env)).flatten⟩ := by
  induction pages with
  | nil => intro st; simp
  | cons pg rest ih =>
    intro st
    rw [List.foldl_cons, ih, processPage_eq]
    simp [Nat.add_assoc]

/-- The number of posts a full run treats as new (and therefore attempts to
create), independent of the creation responses. -/
def totalNew (env : Env) : Nat :=
  ((List.range' 1 max_page).map fun pg => (pageNewPosts env pg).length).sum

/-- The creation calls a full run issues, in order. -/
def totalCreations (env : Env) : List Post :=
  ((List.range' 1 max_page).map (pageNewPosts env)).flatten

/-- The log of a full run, before the final summary line. -/
def totalLog (env : Env) : List LogEntry :=
  ((List.range' 1 max_page).map (pageLog env)).flatten

lemma runMain_eq (env : Env) :
    runMain env =
      ⟨totalNew env, totalCreations env,
       totalLog env ++ [.done (totalNew env)]⟩ := by
  rw [runMain, foldPages_eq]
  simp [totalNew, totalCreations, totalLog]

/-! ### Concrete inputs used by witnesses and counterexamples -/

/-- A hyperlink whose target lacks the blog-host substring. -/
def anchorOffHost : Anchor := ⟨"https://example.com".toList, "Hi".toList⟩

/-- The first link of the end-to-end scenario of the spec. -/
def anchorHello : Anchor :=
  ⟨"https://blog.naver.com/alice/123?from=home".toList, "Hello".toList⟩

/-- The second link of the end-to-end scenario of the spec. -/
def anchorHelloAgain : Anchor :=
  ⟨"https://blog.naver.com/alice/123".toList, "Hello Again".toList⟩

/-- The single post the end-to-end scenario extracts. -/
def postHelloAgain : Post :=
  ⟨"Hello Again".toList, "https://blog.naver.com/alice/123".toList,
   "alice".toList⟩

/-- C3: canonicalization is idempotent — stripping the query string from a URL
that already contains no query string is a no-op, and extraction applied to
the same markup twice yields identical canonical URLs both times. -/
theorem claim_C3_canonicalization_idempotent (s : Str) (h : '?' ∉ s)
    (anchors anchors2 : List Anchor) (h2 : anchors = anchors2) :
    stripQuery s = s ∧
    (parse_posts anchors).map Post.url = (parse_posts anchors2).map Post.url :=
  ⟨stripQuery_of_no_query h, by rw [h2]⟩

/-- Witness for C3 at a concrete clean URL and concrete markup. -/
theorem claim_C3_witness :
    stripQuery "https://blog.naver.com/alice/123".toList =
      "https://blog.naver.com/alice/123".toList ∧
    (parse_posts [anchorHello]).map Post.url =
      (parse_posts [anchorHello]).map Post.url :=
  claim_C3_canonicalization_idempotent _ (by decide) [anchorHello] [anchorHello] rfl

/-- C4: for every extracted candidate, a title longer than 200 code points is
truncated to exactly 200 in the record passed to record creation, and a title
of length at most 200 is passed through unchanged. -/
theorem claim_C4_title_truncation (a : Anchor) (p : Post)
    (h : processAnchor a = some p) :
    (200 < a.text.length → p.title.length = 200 ∧ p.title = a.text.take 200) ∧
    (a.text.length ≤ 200 → p.title = a.text) := by
  obtain ⟨ht, _, _, _, _⟩ := processAnchor_some h
  constructor
  · intro hlen
    refine ⟨?_, ht⟩
    rw [ht, List.length_take]
    omega
  · intro hlen
    rw [ht, List.take_of_length_le hlen]

/-- An anchor with a 201-code-point title. -/
def anchorLong : Anchor :=
  ⟨"https://blog.naver.com/a/1".toList, List.replicate 201 'x'⟩

/-- The post extracted from `anchorLong`. -/
def postLong : Post :=
  ⟨List.replicate 200 'x', "https://blog.naver.com/a/1".toList, ['a']⟩

set_option maxRecDepth 8192 in
/-- Witness for C4: the over-long concrete title is cut to exactly 200. -/
theorem claim_C4_witness :
    postLong.title.length = 200 ∧ postLong.title = anchorLong.text.take 200 :=
  (claim_C4_title_truncation anchorLong postLong (by decide)).1 (by decide)

/-- C5: a link whose href does not contain the author-path marker
`blog.naver.com/` is handled without failure, and any post it produces has an
empty author; if it passes the host filter with non-empty text it does produce
a post, with empty author. -/
theorem claim_C5_author_fallback (a : Anchor)
    (h : pyIn authorMarker a.href = false) :
    (∀ p, processAnchor a = some p → p.blogger = []) ∧
    (pyIn hostMarker a.href = true → a.text ≠ [] →
      ∃ p, processAnchor a = some p ∧ p.blogger = []) := by
  have hstrip : pyIn authorMarker (stripQuery a.href) = false := pyIn_stripQuery h
  have hblog : bloggerOf (stripQuery a.href) = [] := by
    rw [bloggerOf, if_neg (by simp [hstrip])]
  constructor
  · intro p hp
    obtain ⟨_, _, hb, _, _⟩ := processAnchor_some hp
    rw [hb, hblog]
  · intro hhost htext
    refine ⟨⟨a.text.take 200, stripQuery a.href, bloggerOf (stripQuery a.href)⟩,
      ?_, hblog⟩
    unfold processAnchor
    rw [if_pos hhost, if_neg htext]

/-- An anchor containing the host substring but not the author-path marker. -/
def anchorNoMarker : Anchor := ⟨"https://blog.naver.com".toList, ['T']⟩

/-- Witness for C5 at a concrete marker-free link. -/
theorem claim_C5_witness :
    ∃ p, processAnchor anchorNoMarker = some p ∧ p.blogger = [] :=
  (claim_C5_author_fallback anchorNoMarker (by decide)).2 (by decide) (by decide)

/-- Counterexample to C2 as stated: markup with one hyperlink (so `N = 1`
links resolving to `M = 1` distinct canonical URL) whose target lacks the
blog-host substring yields 0 posts, not `M = 1`. -/
theorem claim_C2_counterexample :
    (parse_posts [anchorOffHost]).length = 0 ∧
    (dedupFirstGo [] ([anchorOffHost].map fun a => stripQuery a.href)).length
      = 1 := by decide

/-- C2 (amended): among the retained candidates (hyperlinks passing the host
filter with non-empty text), `parse_posts` returns exactly one post per
distinct canonical URL — as many posts as distinct canonical URLs, with
pairwise-distinct `url`s, covering exactly the candidates' canonical URLs —
and the post kept for each URL is the last retained occurrence in document
order. -/
theorem claim_C2_dedup_within_batch (anchors : List Anchor) :
    (parse_posts anchors).length =
      (dedupFirstGo [] ((anchors.filterMap processAnchor).map Post.url)).length ∧
    ((parse_posts anchors).map Post.url).Nodup ∧
    (∀ u, u ∈ (parse_posts anchors).map Post.url ↔
      ∃ a ∈ anchors, ∃ p, processAnchor a = some p ∧ p.url = u) ∧
    ∀ p ∈ parse_posts anchors,
      ((anchors.filterMap processAnchor).filter fun q => q.url = p.url).getLast?
        = some p := by
  refine ⟨?_, parse_posts_nodup anchors, ?_, fun p hp => parse_posts_last hp⟩
  · rw [← parse_posts_urls]
    exact (List.length_map _ _).symm
  · intro u
    rw [parse_posts_mem_urls]
    simp only [List.mem_map, List.mem_filterMap]
    constructor
    · rintro ⟨p, ⟨a, ha, hpa⟩, hu⟩
      exact ⟨a, ha, p, hpa, hu⟩
    · rintro ⟨a, ha, p, hpa, hu⟩
      exact ⟨p, ⟨a, ha, hpa⟩, hu⟩

/-- Witness for C2 (amended), doubling as the end-to-end scenario: of the two
links to `https://blog.naver.com/alice/123` the one processed last wins. -/
theorem claim_C2_witness :
    (([anchorHello, anchorHelloAgain].filterMap processAnchor).filter
      fun q => q.url = postHelloAgain.url).getLast? = some postHelloAgain :=
  (claim_C2_dedup_within_batch [anchorHello, anchorHelloAgain]).2.2.2
    postHelloAgain (by decide)

/-- C9: invariants of every extraction pass — returned `url`s are pairwise
distinct, contain no `'?'` (cleaned form), every title is non-empty, and every
returned post stems from some anchor of the markup. -/
theorem claim_C9_extraction_invariants (anchors : List Anchor) :
    ((parse_posts anchors).map Post.url).Nodup ∧
    ∀ p ∈ parse_posts anchors,
      '?' ∉ p.url ∧ p.title ≠ [] ∧ ∃ a ∈ anchors, processAnchor a = some p := by
  refine ⟨parse_posts_nodup anchors, fun p hp => ?_⟩
  have hsub := parse_posts_sub hp
  rw [List.mem_filterMap] at hsub
  obtain ⟨a, ha, hpa⟩ := hsub
  obtain ⟨ht, hu, _, htext, _⟩ := processAnchor_some hpa
  refine ⟨?_, ?_, a, ha, hpa⟩
  · rw [hu]; exact not_mem_stripQuery _
  · rw [ht]
    intro hc
    rw [List.take_eq_nil_iff] at hc
    rcases hc with h200 | hnil
    · exact absurd h200 (by simp)
    · exact htext hnil

/-- Witness for C9 at the concrete end-to-end markup. -/
theorem claim_C9_witness :
    '?' ∉ postHelloAgain.url ∧ postHelloAgain.title ≠ [] ∧
      ∃ a ∈ [anchorHello, anchorHelloAgain],
        processAnchor a = some postHelloAgain :=
  (claim_C9_extraction_invariants [anchorHello, anchorHelloAgain]).2
    postHelloAgain (by decide)

/-- C10: `parse_posts` is fully deterministic — equal markup yields equal
output — and its output is ordered by the first occurrence of each canonical
URL among the retained candidates in document order, each post carrying the
data of that URL's last occurrence. -/
theorem claim_C10_deterministic_order (anchors anchors2 : List Anchor)
    (h : anchors = anchors2) :
    parse_posts anchors = parse_posts anchors2 ∧
    (parse_posts anchors).map Post.url =
      dedupFirstGo [] ((anchors.filterMap processAnchor).map Post.url) ∧
    ∀ p ∈ parse_posts anchors,
      ((anchors.filterMap processAnchor).filter fun q => q.url = p.url).getLast?
        = some p :=
  ⟨by rw [h], parse_posts_urls anchors, fun p hp => parse_posts_last hp⟩

/-- A first link to bob's post, with a query string. -/
def anchorBob1 : Anchor :=
  ⟨"https://blog.naver.com/bob/9?x=1".toList, "B1".toList⟩

/-- A link to cara's post, placed between the two bob links. -/
def anchorCara : Anchor := ⟨"https://blog.naver.com/cara/7".toList, "C".toList⟩

/-- A second link to bob's post, without a query string. -/
def anchorBob2 : Anchor := ⟨"https://blog.naver.com/bob/9".toList, "B2".toList⟩

/-- Witness for C10: on concrete three-link markup with a collision, the
output URLs follow first-occurrence order. -/
theorem claim_C10_witness :
    (parse_posts [anchorBob1, anchorCara, anchorBob2]).map Post.url =
      dedupFirstGo []
        (([anchorBob1, anchorCara, anchorBob2].filterMap processAnchor).map
          Post.url) :=
  (claim_C10_deterministic_order [anchorBob1, anchorCara, anchorBob2]
    [anchorBob1, anchorCara, anchorBob2] rfl).2.1

/-! ### Orchestrator claims -/

/-- An anchor for a single new post on page 1. -/
def anchorAlice1 : Anchor := ⟨"https://blog.naver.com/alice/1".toList, ['T']⟩

/-- The post extracted from `anchorAlice1`. -/
def postAlice1 : Post :=
  ⟨['T'], "https://blog.naver.com/alice/1".toList, "alice".toList⟩

/-- An environment with one new post whose creation call fails with a 500. -/
def envC1 : Env :=
  ⟨fun pg => if pg = 1 then some [anchorAlice1] else none,
   fun _ => ⟨200, [], 0⟩,
   fun _ => ⟨500, "validation error".toList⟩⟩

/-- Counterexample to C1 as stated: the single creation call of `envC1` fails
(status 500, logged), yet the final `new_count` is 1, not 0 — `main`
increments the counter whether or not `create_notion_page` succeeded. -/
theorem claim_C1_counterexample :
    (runMain envC1).creations = [postAlice1] ∧
    (envC1.create postAlice1).status ≠ 200 ∧
    LogEntry.insertError (envC1.create postAlice1).text ∈ (runMain envC1).log ∧
    (runMain envC1).newCount = 1 := by decide

/-- C1 (amended): when a creation call fails, the failure is logged and the
batch is not halted — the counter and the creation-call list are exactly those
of all posts the existence check reported as new, independent of every
creation response — but the failed item still counts toward the final tally,
which tallies attempted creations rather than successes. -/
theorem claim_C1_creation_failure (env : Env) (p : Post)
    (hp : p ∈ totalCreations env) (hf : (env.create p).status ≠ 200) :
    LogEntry.insertError (env.create p).text ∈ (runMain env).log ∧
    (runMain env).newCount = totalNew env ∧
    (runMain env).creations = totalCreations env := by
  refine ⟨?_, by rw [runMain_eq], by rw [runMain_eq]⟩
  rw [runMain_eq]
  show LogEntry.insertError (env.create p).text
      ∈ totalLog env ++ [.done (totalNew env)]
  refine List.mem_append.2 (Or.inl ?_)
  rw [totalCreations, List.mem_flatten] at hp
  obtain ⟨lp, hlp, hplp⟩ := hp
  rw [List.mem_map] at hlp
  obtain ⟨pg, hpg, rfl⟩ := hlp
  rw [totalLog, List.mem_flatten]
  refine ⟨pageLog env pg, List.mem_map.2 ⟨pg, hpg, rfl⟩, ?_⟩
  rw [pageNewPosts, pagePosts] at hplp
  cases hf2 : env.fetch pg with
  | none => rw [hf2] at hplp; simp at hplp
  | some anchors =>
    rw [hf2] at hplp
    have hmem := List.mem_filter.1
      (show p ∈ (parse_posts anchors).filter (postNew env) from hplp)
    have hposts : parse_posts anchors ≠ [] := List.ne_nil_of_mem hmem.1
    rw [pageLog, hf2]
    simp only [if_neg hposts]
    refine List.mem_cons_of_mem _ ?_
    rw [List.mem_flatten]
    refine ⟨postLog env p, List.mem_map.2 ⟨p, hmem.1, rfl⟩, ?_⟩
    have hnew : postNew env p = true := hmem.2
    have hb : (notion_page_exists (env.query p.url)).1 = false := by
      rw [postNew] at hnew
      simpa using hnew
    rw [postLog]
    rw [if_neg (by simp [hb])]
    refine List.mem_append.2 (Or.inr ?_)
    rw [create_notion_page, if_pos hf]
    simp

/-- Witness for C1 (amended) at the concrete failing environment. -/
theorem claim_C1_witness :
    LogEntry.insertError (envC1.create postAlice1).text ∈ (runMain envC1).log ∧
    (runMain envC1).newCount = totalNew envC1 ∧
    (runMain envC1).creations = totalCreations envC1 :=
  claim_C1_creation_failure envC1 postAlice1 (by decide) (by decide)

/-- C6: if the existence check answers true for every URL the run extracts,
the full run reports a final new-item count of 0 and issues zero
record-creation calls. -/
theorem claim_C6_idempotent_run (env : Env)
    (h : ∀ pg ∈ List.range' 1 max_page, ∀ p ∈ pagePosts env pg,
      (notion_page_exists (env.query p.url)).1 = true) :
    (runMain env).newCount = 0 ∧ (runMain env).creations = [] := by
  have hpage : ∀ pg ∈ List.range' 1 max_page, pageNewPosts env pg = [] := by
    intro pg hpg
    rw [pageNewPosts, List.filter_eq_nil_iff]
    intro p hp
    rw [postNew]
    simp [h pg hpg p hp]
  rw [runMain_eq]
  constructor
  · show totalNew env = 0
    rw [totalNew]
    refine List.sum_eq_zero ?_
    intro x hx
    rw [List.mem_map] at hx
    obtain ⟨pg, hpg, rfl⟩ := hx
    rw [hpage pg hpg]
    rfl
  · show totalCreations env = []
    rw [totalCreations, List.flatten_eq_nil_iff]
    intro l hl
    rw [List.mem_map] at hl
    obtain ⟨pg, hpg, rfl⟩ := hl
    exact hpage pg hpg

/-- An environment whose store already contains every URL. -/
def envC6 : Env :=
  ⟨fun pg => if pg = 1 then some [anchorAlice1] else none,
   fun _ => ⟨200, [], 1⟩,
   fun _ => ⟨200, []⟩⟩

/-- Witness for C6: a concrete all-known batch saves nothing. -/
theorem claim_C6_witness :
    (runMain envC6).newCount = 0 ∧ (runMain envC6).creations = [] :=
  claim_C6_idempotent_run envC6 (fun _ _ _ _ => rfl)

/-- C7: when the existence-query call fails (non-200 response), the failure is
logged, the check returns false, and the pipeline treats the record as new. -/
theorem claim_C7_query_fail_open (resp : QueryResp) (h : resp.status ≠ 200) :
    notion_page_exists resp = (false, [.queryError resp.text]) ∧
    ∀ (env : Env) (p : Post), env.query p.url = resp → postNew env p = true := by
  constructor
  · rw [notion_page_exists, if_pos h]
  · intro env p he
    rw [postNew, he, notion_page_exists, if_pos h]
    rfl

/-- A failing query response. -/
def respFail : QueryResp := ⟨404, "unauthorized".toList, 0⟩

/-- An environment whose existence queries always fail. -/
def envC7 : Env := ⟨fun _ => none, fun _ => respFail, fun _ => ⟨200, []⟩⟩

/-- Witness for C7 at a concrete 404 query response. -/
theorem claim_C7_witness :
    notion_page_exists respFail = (false, [.queryError respFail.text]) ∧
    postNew envC7 postAlice1 = true :=
  ⟨(claim_C7_query_fail_open respFail (by decide)).1,
   (claim_C7_query_fail_open respFail (by decide)).2 envC7 postAlice1 rfl⟩

/-- C8: if fetching page 3 of 5 raises, that page contributes zero posts, the
error is logged, the remaining pages 1, 2, 4, 5 are still processed with their
new items still counted, and the run completes with its final summary. -/
theorem claim_C8_fetch_failure_resilience (env : Env) (h : env.fetch 3 = none) :
    pageNewPosts env 3 = [] ∧
    LogEntry.pageFetchError ∈ (runMain env).log ∧
    (runMain env).newCount =
      ([1, 2, 4, 5].map fun pg => (pageNewPosts env pg).length).sum ∧
    (runMain env).creations = ([1, 2, 4, 5].map (pageNewPosts env)).flatten ∧
    LogEntry.done (runMain env).newCount ∈ (runMain env).log := by
  have h3 : pageNewPosts env 3 = [] := by
    rw [pageNewPosts, pagePosts, h]
    rfl
  have hrange : List.range' 1 max_page = [1, 2, 3, 4, 5] := rfl
  have hlog3 : pageLog env 3 = [.fetchPage 3, .pageFetchError] := by
    rw [pageLog, h]
  refine ⟨h3, ?_, ?_, ?_, ?_⟩
  · rw [runMain_eq]
    show LogEntry.pageFetchError ∈ totalLog env ++ [.done (totalNew env)]
    refine List.mem_append.2 (Or.inl ?_)
    rw [totalLog, List.mem_flatten]
    refine ⟨pageLog env 3, List.mem_map.2 ⟨3, by rw [hrange]; simp, rfl⟩, ?_⟩
    rw [hlog3]
    simp
  · rw [runMain_eq]
    show totalNew env = _
    rw [totalNew, hrange]
    simp [h3]
  · rw [runMain_eq]
    show totalCreations env = _
    rw [totalCreations, hrange]
    simp [h3]
  · rw [runMain_eq]
    simp

/-- An environment where only the fetch of page 3 raises. -/
def envC8 : Env :=
  ⟨fun pg => if pg = 3 then none else some [anchorAlice1],
   fun _ => ⟨200, [], 0⟩,
   fun _ => ⟨200, []⟩⟩

/-- Witness for C8 at a concrete environment failing only on page 3. -/
theorem claim_C8_witness :
    pageNewPosts envC8 3 = [] ∧
    LogEntry.pageFetchError ∈ (runMain envC8).log ∧
    (runMain envC8).newCount =
      ([1, 2, 4, 5].map fun pg => (pageNewPosts envC8 pg).length).sum ∧
    (runMain envC8).creations = ([1, 2, 4, 5].map (pageNewPosts envC8)).flatten ∧
    LogEntry.done (runMain envC8).newCount ∈ (runMain envC8).log :=
  claim_C8_fetch_failure_resilience envC8 rfl
